import Mathlib

/-!
Verification of the job-queue and worker engine of `src/app.py`.

The source is a Flask application backed by a SQLite table
`jobs (id INTEGER PRIMARY KEY AUTOINCREMENT, target, status, result_json, created_at)`,
with a single daemon worker thread (`worker_loop`), an enqueue route
(`start_job`), and a status route (`job_status`).  SQLite serializes the
individual SQL statements, so the shallow embedding models every SQL
statement of the source as one atomic Lean function on a `Store`, and the
concurrent system (request handlers interleaved with the worker thread) as
a small-step transition relation whose steps are exactly those atomic
statements.
-/

namespace Insta

/-- Job status values stored in the `status` column of the `jobs` table:
`'queued'`, `'running'`, `'done'`, `'error'` (src/app.py lines 71, 79, 85, 168). -/
inductive Status where
  | queued
  | running
  | done
  | error
deriving DecidableEq, Repr

/-- Shallow model of the JSON values that the source serializes into the
`result_json` column with `json.dumps` (src/app.py lines 76, 86). -/
inductive JVal where
  | null : JVal
  | bool : Bool → JVal
  | num : Int → JVal
  | str : String → JVal
  | arr : List JVal → JVal
  | obj : List (String × JVal) → JVal
deriving Repr

/-- One row of the `jobs` table (src/app.py lines 32-38).  `created_at` is a
`DEFAULT CURRENT_TIMESTAMP` column never consulted by any query of the source
(ordering is always `ORDER BY id`), so it is not modelled; `result_json` is
`NULL` (`none`) until a terminal update writes it. -/
structure Job where
  id : Nat
  target : String
  status : Status
  result_json : Option JVal
deriving Repr

/-- The `jobs` table.  Rows are kept in insertion order, which coincides with
increasing `id` order because `id` is `INTEGER PRIMARY KEY AUTOINCREMENT`;
`nextId` is the next AUTOINCREMENT value. -/
structure Store where
  jobs : List Job
  nextId : Nat

/-- The empty database created by `init_db` (src/app.py lines 24-40):
no job rows, AUTOINCREMENT starting at 1. -/
def initStore : Store := ⟨[], 1⟩

/-- `SELECT id, target FROM jobs WHERE status='queued' ORDER BY id LIMIT 1`
(src/app.py line 67).  With rows kept in increasing-id order, the first
queued row is the queued row of lowest id. -/
def selectNextQueued (s : Store) : Option (Nat × String) :=
  (s.jobs.find? fun j => j.status == Status.queued).map fun j => (j.id, j.target)

/-- Apply an update to every row whose `id` equals `i` (the effect of a SQL
`UPDATE ... WHERE id=?`). -/
def applyUpd (i : Nat) (f : Job → Job) (jobs : List Job) : List Job :=
  jobs.map fun j => if j.id = i then f j else j

/-- `UPDATE jobs SET status=? WHERE id=?` (src/app.py line 71).  Note the
update is unguarded: it does not require the current status to be `queued`. -/
def setStatus (s : Store) (i : Nat) (st : Status) : Store :=
  { s with jobs := applyUpd i (fun j => { j with status := st }) s.jobs }

/-- `UPDATE jobs SET status=?, result_json=? WHERE id=?` (src/app.py
lines 79 and 85).  Again unguarded: no `AND status='running'` clause. -/
def setStatusResult (s : Store) (i : Nat) (st : Status) (r : JVal) : Store :=
  { s with jobs := applyUpd i (fun j => { j with status := st, result_json := some r }) s.jobs }

/-- Errors returned by the HTTP routes: `{'error':'auth'}, 401`,
`{'error':'missing'}, 400` (the spec's `InvalidTarget`), and
`{'error':'notfound'}, 404` (the spec's `NotFound`). -/
inductive ApiError where
  | auth
  | missing
  | notfound
deriving DecidableEq, Repr

/-- The `/start_job` route (src/app.py lines 158-172).  `target` is
`data.get('username')`, so it may be absent; Python's `if not target` rejects
both the absent case and the empty string with the 400 `missing` response
before any database access, so on failure the store is returned unchanged.
Otherwise one row `(target, 'queued')` is inserted and `cur.lastrowid` is
returned. -/
def start_job (loggedIn : Bool) (s : Store) (target : Option String) :
    Store × Except ApiError Nat :=
  if loggedIn = false then (s, .error .auth)
  else
    match target with
    | none => (s, .error .missing)
    | some t =>
      if t = "" then (s, .error .missing)
      else
        ({ jobs := s.jobs ++ [⟨s.nextId, t, .queued, none⟩], nextId := s.nextId + 1 },
         .ok s.nextId)

/-- The `/job_status` route (src/app.py lines 174-189):
`SELECT id, status, result_json FROM jobs WHERE id=?`; 404 `notfound` when no
row matches, otherwise the row's id, status and deserialized result. -/
def job_status (s : Store) (jid : Nat) : Except ApiError (Nat × Status × Option JVal) :=
  match s.jobs.find? fun j => j.id == jid with
  | none => .error .notfound
  | some j => .ok (j.id, j.status, j.result_json)

/-- One post record built at src/app.py line 114:
`{'date': post.date_utc.isoformat(), 'caption': post.caption}` (the caption
may be `None`). -/
structure Post where
  date : String
  caption : Option String
deriving Repr

/-- The fields of an `instaloader.Profile` that `process_target` reads
(src/app.py lines 98-115), with `posts` the stream `profile.get_posts()`. -/
structure Profile where
  username : String
  full_name : String
  is_private : Bool
  mediacount : Nat
  followers : Nat
  followees : Nat
  biography : String
  profile_pic_url : Option String
  posts : List Post
deriving Repr

/-- What the external Fetcher (instaloader) does for one target: return a
profile, raise `ProfileNotExistsException`, or raise any other exception
(network errors, login errors, errors while iterating posts, ...), carried
here as its `str(e)` message. -/
inductive FetchOutcome where
  | profile : Profile → FetchOutcome
  | notExists : FetchOutcome
  | exc : String → FetchOutcome

/-- An optional string serialized to JSON (`None` becomes `null`). -/
def ostr : Option String → JVal
  | none => .null
  | some s => .str s

/-- The dict built for one post (src/app.py line 114). -/
def postJson (p : Post) : JVal :=
  .obj [("date", .str p.date), ("caption", ostr p.caption)]

/-- The `data` dict built by `process_target` for an existing profile
(src/app.py lines 99-115): the base fields, plus `latest_posts` (the first
five posts) when the profile is public and has media. -/
def profileJson (p : Profile) : JVal :=
  let base : List (String × JVal) :=
    [("exists", .bool true),
     ("username", .str p.username),
     ("full_name", .str p.full_name),
     ("is_private", .bool p.is_private),
     ("media_count", .num p.mediacount),
     ("followers", .num p.followers),
     ("followees", .num p.followees),
     ("biography", .str p.biography),
     ("profile_pic_url", ostr p.profile_pic_url)]
  if p.is_private = false ∧ p.mediacount ≠ 0 then
    .obj (base ++ [("latest_posts", .arr ((p.posts.take 5).map postJson))])
  else
    .obj base

/-- `process_target` (src/app.py lines 96-118): builds the profile dict,
returns `{'exists': False}` on `ProfileNotExistsException`, and lets every
other exception propagate to the caller (modelled as `Except.error` carrying
the exception message). -/
def process_target : FetchOutcome → Except String JVal
  | .profile p => .ok (profileJson p)
  | .notExists => .ok (.obj [("exists", .bool false)])
  | .exc msg => .error msg

/-- The error payload `{'error': str(e)}` written by the worker's exception
handler (src/app.py line 86). -/
def errObj (msg : String) : JVal := .obj [("error", .str msg)]

/-- Lines 67-72 of src/app.py as executed by a single claimer with no
interleaving: the `SELECT ... LIMIT 1` followed by the
`UPDATE ... SET status='running'` on the selected row (this sequential
composition is the spec's `claim_next`; its behaviour under two interleaved
claimers is modelled separately by `Step2` below). -/
def claim_next (s : Store) : Option (Nat × String) × Store :=
  match selectNextQueued s with
  | none => (none, s)
  | some (i, t) => (some (i, t), setStatus s i .running)

/-- The persist phase of one worker iteration for claimed job `i`
(src/app.py lines 74-88): on a successful `process_target`, write
`status='done'` with the result; on an exception, write `status='error'`
with `{'error': str(e)}`. -/
def finishStore (s : Store) (i : Nat) (outcome : FetchOutcome) : Store :=
  match process_target outcome with
  | .ok r => setStatusResult s i .done r
  | .error msg => setStatusResult s i .error (errObj msg)

/-! ## The concurrent system: request handlers interleaved with the worker

`worker_loop` (src/app.py lines 56-91) runs forever on one daemon thread.
Its loop body executes, in order: the `SELECT` (poll), the `UPDATE` to
`running` (claim), the Fetcher call, and the terminal `UPDATE` (finish).
Each SQL statement is atomic (SQLite serializes statements across
connections), so the worker's position inside the loop body is a program
counter with one state per gap between statements. -/

/-- The worker thread's program counter inside one iteration of `worker_loop`:
`idle` before the `SELECT` of line 67, `selected i` between the `SELECT` and
the claim `UPDATE` of line 71, `claimed i` between the claim commit and the
terminal `UPDATE` of line 79/85 (this is where the Fetcher call happens). -/
inductive WorkerPC where
  | idle
  | selected : Nat → WorkerPC
  | claimed : Nat → WorkerPC
deriving DecidableEq, Repr

/-- A state of the whole system: the database plus the worker's position. -/
structure Sys where
  store : Store
  wpc : WorkerPC

/-- The initial system state: empty `jobs` table, worker at the top of its
loop. -/
def initSys : Sys := ⟨initStore, .idle⟩

/-- One atomic step of the system: a request handler runs `start_job` or
`job_status` (any number of concurrent Flask threads, each SQL statement
serialized by SQLite), or the single worker advances by one statement of its
loop body.  `finish` takes the Fetcher's outcome for the claimed target as an
external input. -/
inductive Step : Sys → Sys → Prop where
  | submit (σ : Sys) (target : Option String) :
      Step σ ⟨(start_job true σ.store target).1, σ.wpc⟩
  | query (σ : Sys) (jid : Nat) :
      Step σ σ
  | pollNone (σ : Sys) :
      σ.wpc = .idle → selectNextQueued σ.store = none → Step σ σ
  | pollSome (σ : Sys) (i : Nat) (t : String) :
      σ.wpc = .idle → selectNextQueued σ.store = some (i, t) →
      Step σ ⟨σ.store, .selected i⟩
  | claim (σ : Sys) (i : Nat) :
      σ.wpc = .selected i →
      Step σ ⟨setStatus σ.store i .running, .claimed i⟩
  | finish (σ : Sys) (i : Nat) (outcome : FetchOutcome) :
      σ.wpc = .claimed i →
      Step σ ⟨finishStore σ.store i outcome, .idle⟩

/-- States reachable from the initial state by any interleaving of steps. -/
inductive Reachable : Sys → Prop where
  | init : Reachable initSys
  | step {σ σ' : Sys} : Reachable σ → Step σ σ' → Reachable σ'

/-! ## Invariants -/

/-- Every row id is below the next AUTOINCREMENT value. -/
def IdsBelow (s : Store) : Prop := ∀ j ∈ s.jobs, j.id < s.nextId

/-- Row ids are strictly increasing along the table (AUTOINCREMENT order). -/
def IdsSorted (s : Store) : Prop := s.jobs.Pairwise fun a b => a.id < b.id

/-- `result_json` is `NULL` exactly while the job is non-terminal. -/
def ResultInv (s : Store) : Prop :=
  ∀ j ∈ s.jobs,
    ((j.status = .queued ∨ j.status = .running) → j.result_json = none) ∧
    ((j.status = .done ∨ j.status = .error) → j.result_json ≠ none)

/-- Queued jobs form an upward-closed set of ids: once some job has left
`queued`, every job of smaller id has left `queued` too. -/
def OrderInv (s : Store) : Prop :=
  ∀ a ∈ s.jobs, ∀ b ∈ s.jobs, a.id < b.id → b.status ≠ .queued → a.status ≠ .queued

/-- What the worker's program counter says about the table: no job runs while
the worker is not mid-iteration; a selected job is queued, minimal, and
nothing runs yet; a claimed job is the unique running job. -/
def WpcInv (s : Store) : WorkerPC → Prop
  | .idle => ∀ j ∈ s.jobs, j.status ≠ .running
  | .selected i =>
      (∃ j ∈ s.jobs, j.id = i ∧ j.status = .queued) ∧
      (∀ j ∈ s.jobs, j.status ≠ .running) ∧
      (∀ j ∈ s.jobs, j.id < i → j.status ≠ .queued)
  | .claimed i =>
      (∃ j ∈ s.jobs, j.id = i ∧ j.status = .running) ∧
      (∀ j ∈ s.jobs, j.status = .running → j.id = i)

/-- The global inductive invariant of the system. -/
def Inv (σ : Sys) : Prop :=
  IdsBelow σ.store ∧ IdsSorted σ.store ∧ ResultInv σ.store ∧ OrderInv σ.store ∧
    WpcInv σ.store σ.wpc

/-- The status column of the row of id `k`, as observed through
`SELECT ... WHERE id=?` (`none` when no such row exists). -/
def statusOf (s : Store) (k : Nat) : Option Status :=
  (s.jobs.find? fun j => j.id == k).map Job.status

/-- One observable change of the `status` column of a fixed job id between a
state and its successor: unchanged, newly inserted as `queued`, claimed
(`queued` to `running`), or finished (`running` to `done` or `error`).  Rows
are never deleted, so `some` to `none` is impossible. -/
def statusStepOk : Option Status → Option Status → Prop
  | none, none => True
  | none, some st => st = .queued
  | some st, some st' =>
      st' = st ∨ (st = .queued ∧ st' = .running) ∨
        (st = .running ∧ (st' = .done ∨ st' = .error))
  | some _, none => False

/-! ## Two concurrent claimers

The spec requires the claim operation to be race-free for a worker pool of
size at least 1.  The claim operation in the source is the `SELECT` of
line 67 followed by the unguarded `UPDATE` of line 71, two separate SQL
statements.  `Step2` runs two claimers, each executing exactly those two
statements, with the statements of the two claimers interleaved arbitrarily
(SQLite only serializes individual statements). -/

/-- Program counter of one claimer executing lines 67-72: before its
`SELECT`; after a `SELECT` that returned a row of the given id; after its
`UPDATE` (it now believes it owns that job); or after a `SELECT` that
returned no row. -/
inductive ClaimerPC where
  | start
  | selected : Nat → ClaimerPC
  | claimedJob : Nat → ClaimerPC
  | gotNone
deriving DecidableEq, Repr

/-- A state of the two-claimer system. -/
structure Sys2 where
  store : Store
  c1 : ClaimerPC
  c2 : ClaimerPC

/-- One atomic SQL statement by either claimer. -/
inductive Step2 : Sys2 → Sys2 → Prop where
  | poll1 (s : Sys2) (i : Nat) (t : String) :
      s.c1 = .start → selectNextQueued s.store = some (i, t) →
      Step2 s ⟨s.store, .selected i, s.c2⟩
  | poll1None (s : Sys2) :
      s.c1 = .start → selectNextQueued s.store = none →
      Step2 s ⟨s.store, .gotNone, s.c2⟩
  | upd1 (s : Sys2) (i : Nat) :
      s.c1 = .selected i →
      Step2 s ⟨setStatus s.store i .running, .claimedJob i, s.c2⟩
  | poll2 (s : Sys2) (i : Nat) (t : String) :
      s.c2 = .start → selectNextQueued s.store = some (i, t) →
      Step2 s ⟨s.store, s.c1, .selected i⟩
  | poll2None (s : Sys2) :
      s.c2 = .start → selectNextQueued s.store = none →
      Step2 s ⟨s.store, s.c1, .gotNone⟩
  | upd2 (s : Sys2) (i : Nat) :
      s.c2 = .selected i →
      Step2 s ⟨setStatus s.store i .running, s.c1, .claimedJob i⟩

/-- Reachability of the two-claimer system from a given start state. -/
inductive Reach2 (s0 : Sys2) : Sys2 → Prop where
  | refl : Reach2 s0 s0
  | step {s s' : Sys2} : Reach2 s0 s → Step2 s s' → Reach2 s0 s'

/-- A store holding one queued job, about to be claimed by two concurrent
claimers. -/
def raceStart : Sys2 := ⟨⟨[⟨1, "alice", .queued, none⟩], 2⟩, .start, .start⟩

/-- The state in which both claimers believe they own job 1. -/
def raceEnd : Sys2 := ⟨⟨[⟨1, "alice", .running, none⟩], 2⟩, .claimedJob 1, .claimedJob 1⟩

/-! ## Store failures in the worker loop -/

/-- Which of the worker-loop's four groups of store accesses fail (raise a
sqlite exception) in one iteration: the connect/`SELECT` of lines 65-68, the
claim `UPDATE`/commit of lines 71-72, the success-persist of lines 77-81,
and the error-persist of lines 83-88. -/
structure StoreFaults where
  pollFails : Bool
  claimFails : Bool
  donePersistFails : Bool
  errorPersistFails : Bool

/-- A representative message of the exception raised by sqlite3 when the
store is unavailable. -/
def storeErrMsg : String := "database is locked"

/-- One iteration of the `while True` body of `worker_loop` (src/app.py
lines 64-91) with store-failure injection.  `.error msg` means an exception
escaped the loop body: `worker_loop` has no handler around the loop, so the
daemon worker thread terminates.  `.ok (s', slept)` means the iteration
completed, with `slept = true` when the empty-queue `time.sleep(2)` branch
ran.  The `try` of line 74 covers the Fetcher call and the success-persist
(lines 75-81); its `except Exception` (line 82) catches any exception from
those — including a store failure during the success-persist, whose message
then becomes the job's error payload — and runs the error-persist, which is
itself unprotected. -/
def worker_iteration (f : StoreFaults) (outcome : FetchOutcome) (s : Store) :
    Except String (Store × Bool) :=
  if f.pollFails then .error storeErrMsg
  else
    match selectNextQueued s with
    | none => .ok (s, true)
    | some (i, _t) =>
      if f.claimFails then .error storeErrMsg
      else
        let s1 := setStatus s i .running
        match process_target outcome with
        | .ok r =>
          if f.donePersistFails then
            if f.errorPersistFails then .error storeErrMsg
            else .ok (setStatusResult s1 i .error (errObj storeErrMsg), false)
          else .ok (setStatusResult s1 i .done r, false)
        | .error msg =>
          if f.errorPersistFails then .error storeErrMsg
          else .ok (setStatusResult s1 i .error (errObj msg), false)

/-! ## Concrete states used by witnesses -/

/-- The job created by `submit("alice")` on the empty store. -/
def demoJob : Job := ⟨1, "alice", .queued, none⟩

/-- System state after `submit("alice")`. -/
def sysA : Sys := ⟨⟨[demoJob], 2⟩, .idle⟩

/-- System state after the worker's `SELECT` picked job 1. -/
def sysB : Sys := ⟨⟨[demoJob], 2⟩, .selected 1⟩

/-- System state after the worker's claim `UPDATE`: job 1 is running. -/
def sysC : Sys := ⟨⟨[⟨1, "alice", .running, none⟩], 2⟩, .claimed 1⟩

/-! ## Helper lemmas about lists and the table operations -/

theorem find?_split {α : Type} {p : α → Bool} {l : List α} {a : α}
    (h : l.find? p = some a) :
    ∃ l₁ l₂, l = l₁ ++ a :: l₂ ∧ (∀ x ∈ l₁, p x = false) ∧ p a = true := by
  induction l with
  | nil => simp [List.find?] at h
  | cons x xs ih =>
    by_cases hx : p x
    · rw [List.find?_cons_of_pos _ hx] at h
      obtain rfl : x = a := Option.some.inj h
      exact ⟨[], xs, rfl, by simp, hx⟩
    · rw [List.find?_cons_of_neg _ (by simpa using hx)] at h
      obtain ⟨l₁, l₂, rfl, h₁, h₂⟩ := ih h
      refine ⟨x :: l₁, l₂, rfl, ?_, h₂⟩
      intro y hy
      rcases List.mem_cons.mp hy with rfl | hy
      · simpa using hx
      · exact h₁ y hy

theorem pairwise_id_unique {l : List Job} (hs : l.Pairwise fun a b => a.id < b.id)
    {j j' : Job} (hj : j ∈ l) (hj' : j' ∈ l) (h : j.id = j'.id) : j = j' := by
  induction l with
  | nil => cases hj
  | cons x xs ih =>
    rw [List.pairwise_cons] at hs
    rcases List.mem_cons.mp hj with rfl | hjm <;> rcases List.mem_cons.mp hj' with rfl | hjm'
    · rfl
    · exact absurd h (by have := hs.1 _ hjm'; omega)
    · exact absurd h (by have := hs.1 _ hjm; omega)
    · exact ih hs.2 hjm hjm'

theorem mem_applyUpd {i : Nat} {f : Job → Job} {l : List Job} {j' : Job} :
    j' ∈ applyUpd i f l ↔ ∃ j ∈ l, (if j.id = i then f j else j) = j' := by
  simp [applyUpd, List.mem_map]

theorem mem_applyUpd_of_ne {i : Nat} {f : Job → Job} {l : List Job} {j : Job}
    (hj : j ∈ l) (hne : j.id ≠ i) : j ∈ applyUpd i f l :=
  mem_applyUpd.mpr ⟨j, hj, by simp [hne]⟩

theorem applyUpd_id {i : Nat} {f : Job → Job} (hf : ∀ j, (f j).id = j.id) (j : Job) :
    (if j.id = i then f j else j).id = j.id := by
  split
  · exact hf j
  · rfl

theorem idsSorted_applyUpd {i : Nat} {f : Job → Job} (hf : ∀ j, (f j).id = j.id)
    {l : List Job} (h : l.Pairwise fun a b => a.id < b.id) :
    (applyUpd i f l).Pairwise fun a b => a.id < b.id := by
  rw [applyUpd, List.pairwise_map]
  exact h.imp fun {a b} hab => by
    rw [applyUpd_id hf a, applyUpd_id hf b]; exact hab

theorem idsBelow_applyUpd {i n : Nat} {f : Job → Job} (hf : ∀ j, (f j).id = j.id)
    {l : List Job} (h : ∀ j ∈ l, j.id < n) :
    ∀ j' ∈ applyUpd i f l, j'.id < n := by
  intro j' hj'
  obtain ⟨j, hj, rfl⟩ := mem_applyUpd.mp hj'
  rw [applyUpd_id hf j]
  exact h j hj

theorem find?_id_applyUpd {i : Nat} {f : Job → Job} (hf : ∀ j, (f j).id = j.id)
    (l : List Job) (k : Nat) :
    (applyUpd i f l).find? (fun j => j.id == k) =
      (l.find? fun j => j.id == k).map fun j => if j.id = i then f j else j := by
  induction l with
  | nil => rfl
  | cons x xs ih =>
    have hgid : (if x.id = i then f x else x).id = x.id := applyUpd_id hf x
    by_cases hx : (x.id == k) = true
    · rw [show applyUpd i f (x :: xs) =
          (if x.id = i then f x else x) :: applyUpd i f xs from rfl,
        List.find?_cons_of_pos (p := fun j : Job => j.id == k) _
          (by show ((if x.id = i then f x else x).id == k) = true; rw [hgid]; exact hx),
        List.find?_cons_of_pos (p := fun j : Job => j.id == k) _ hx]
      rfl
    · rw [show applyUpd i f (x :: xs) =
          (if x.id = i then f x else x) :: applyUpd i f xs from rfl,
        List.find?_cons_of_neg (p := fun j : Job => j.id == k) _
          (by show ¬ ((if x.id = i then f x else x).id == k) = true; rw [hgid]; exact hx),
        List.find?_cons_of_neg (p := fun j : Job => j.id == k) _ hx]
      exact ih

theorem countP_id_le_one {l : List Job} (hs : l.Pairwise fun a b => a.id < b.id)
    (i : Nat) : l.countP (fun j => j.id == i) ≤ 1 := by
  induction l with
  | nil => simp
  | cons x xs ih =>
    rw [List.pairwise_cons] at hs
    by_cases hx : (x.id == i) = true
    · have hxi : x.id = i := beq_iff_eq.mp hx
      have hzero : xs.countP (fun j => j.id == i) = 0 := by
        refine List.countP_eq_zero.mpr fun b hb => ?_
        have := hs.1 b hb
        simp only [beq_iff_eq]
        omega
      rw [List.countP_cons_of_pos (p := fun j : Job => j.id == i) _ hx, hzero]
    · rw [List.countP_cons_of_neg (p := fun j : Job => j.id == i) _ (by simpa using hx)]
      exact Nat.le_trans (ih hs.2) (Nat.le_refl 1)

/-! ## Preservation of the invariant -/

theorem start_job_insert (s : Store) (t : String) (ht : t ≠ "") :
    start_job true s (some t) =
      (⟨s.jobs ++ [⟨s.nextId, t, .queued, none⟩], s.nextId + 1⟩, .ok s.nextId) := by
  simp [start_job, ht]

theorem inv_init : Inv initSys := by
  refine ⟨?_, ?_, ?_, ?_, ?_⟩ <;>
    simp [IdsBelow, IdsSorted, ResultInv, OrderInv, WpcInv, initSys, initStore]

theorem inv_insert {s : Store} {w : WorkerPC}
    (hBelow : IdsBelow s) (hSorted : IdsSorted s) (hRes : ResultInv s)
    (hOrd : OrderInv s) (hW : WpcInv s w) (t : String) :
    Inv ⟨⟨s.jobs ++ [⟨s.nextId, t, .queued, none⟩], s.nextId + 1⟩, w⟩ := by
  have hnewBelow : IdsBelow ⟨s.jobs ++ [⟨s.nextId, t, .queued, none⟩], s.nextId + 1⟩ := by
    intro j hj
    rcases List.mem_append.mp hj with hj | hj
    · exact Nat.lt_trans (hBelow j hj) (Nat.lt_succ_self _)
    · rcases List.mem_singleton.mp hj with rfl
      exact Nat.lt_succ_self _
  refine ⟨hnewBelow, ?_, ?_, ?_, ?_⟩
  · refine List.pairwise_append.mpr ⟨hSorted, List.pairwise_singleton _ _, ?_⟩
    intro a ha b hb
    rcases List.mem_singleton.mp hb with rfl
    exact hBelow a ha
  · intro j hj
    rcases List.mem_append.mp hj with hj | hj
    · exact hRes j hj
    · rcases List.mem_singleton.mp hj with rfl
      refine ⟨fun _ => rfl, fun hterm => ?_⟩
      rcases hterm with h' | h' <;> cases h'
  · intro a ha b hb hab hbq
    rcases List.mem_append.mp ha with ha | ha
    · rcases List.mem_append.mp hb with hb | hb
      · exact hOrd a ha b hb hab hbq
      · rcases List.mem_singleton.mp hb with rfl
        exact absurd rfl hbq
    · rcases List.mem_singleton.mp ha with rfl
      rcases List.mem_append.mp hb with hb | hb
      · exact absurd hab (by have := hBelow b hb; simp; omega)
      · rcases List.mem_singleton.mp hb with rfl
        exact absurd hab (by simp)
  · cases w with
    | idle =>
      intro j hj
      rcases List.mem_append.mp hj with hj | hj
      · exact hW j hj
      · rcases List.mem_singleton.mp hj with rfl
        intro h'; cases h'
    | selected i =>
      obtain ⟨⟨j₀, hj₀m, hj₀id, hj₀q⟩, hnorun, hmin⟩ := hW
      refine ⟨⟨j₀, List.mem_append_left _ hj₀m, hj₀id, hj₀q⟩, ?_, ?_⟩
      · intro j hj
        rcases List.mem_append.mp hj with hj | hj
        · exact hnorun j hj
        · rcases List.mem_singleton.mp hj with rfl
          intro h'; cases h'
      · intro j hj hlt
        rcases List.mem_append.mp hj with hj | hj
        · exact hmin j hj hlt
        · rcases List.mem_singleton.mp hj with rfl
          have hi : i < s.nextId := hj₀id ▸ hBelow j₀ hj₀m
          exact absurd hlt (by simp; omega)
    | claimed i =>
      obtain ⟨⟨j₀, hj₀m, hj₀id, hj₀r⟩, huniq⟩ := hW
      refine ⟨⟨j₀, List.mem_append_left _ hj₀m, hj₀id, hj₀r⟩, ?_⟩
      intro j hj hrun
      rcases List.mem_append.mp hj with hj | hj
      · exact huniq j hj hrun
      · rcases List.mem_singleton.mp hj with rfl
        cases hrun

theorem inv_pollSome {s : Store} {i : Nat} {t : String}
    (hBelow : IdsBelow s) (hSorted : IdsSorted s) (hRes : ResultInv s)
    (hOrd : OrderInv s) (hW : WpcInv s .idle)
    (hsel : selectNextQueued s = some (i, t)) :
    Inv ⟨s, .selected i⟩ := by
  obtain ⟨j₀, hfind, hg⟩ := Option.map_eq_some'.mp hsel
  have hj₀id : j₀.id = i := congrArg Prod.fst hg
  have hj₀m : j₀ ∈ s.jobs := List.mem_of_find?_eq_some hfind
  have hpj := List.find?_some (p := fun j : Job => j.status == Status.queued) hfind
  have hj₀q : j₀.status = Status.queued := beq_iff_eq.mp hpj
  refine ⟨hBelow, hSorted, hRes, hOrd, ⟨j₀, hj₀m, hj₀id, hj₀q⟩, hW, ?_⟩
  obtain ⟨l₁, l₂, heq, hl₁, _⟩ := find?_split hfind
  have hS : (l₁ ++ j₀ :: l₂).Pairwise (fun a b => a.id < b.id) := by
    rw [← heq]; exact hSorted
  intro b hb hlt
  rw [heq] at hb
  rcases List.mem_append.mp hb with hb | hb
  · have hpb := hl₁ b hb
    intro hbq
    rw [hbq] at hpb
    simp at hpb
  · rcases List.mem_cons.mp hb with rfl | hb
    · exact absurd hlt (by omega)
    · have h' := List.rel_of_pairwise_cons (List.pairwise_append.mp hS).2.1 hb
      exact absurd hlt (by omega)

theorem inv_claim {s : Store} {i : Nat}
    (hBelow : IdsBelow s) (hSorted : IdsSorted s) (hRes : ResultInv s)
    (hOrd : OrderInv s) (hW : WpcInv s (.selected i)) :
    Inv ⟨setStatus s i .running, .claimed i⟩ := by
  obtain ⟨⟨j₀, hj₀m, hj₀id, hj₀q⟩, hnorun, hmin⟩ := hW
  have hf : ∀ j : Job, ({ j with status := Status.running } : Job).id = j.id := fun _ => rfl
  refine ⟨idsBelow_applyUpd hf hBelow, idsSorted_applyUpd hf hSorted, ?_, ?_, ?_, ?_⟩
  · intro j' hj'
    obtain ⟨j, hj, rfl⟩ := mem_applyUpd.mp hj'
    by_cases hid : j.id = i
    · have hjq : j.status = Status.queued := by
        have : j = j₀ := pairwise_id_unique hSorted hj hj₀m (hid.trans hj₀id.symm)
        rw [this]; exact hj₀q
      rw [if_pos hid]
      refine ⟨fun _ => (hRes j hj).1 (Or.inl hjq), fun hterm => ?_⟩
      rcases hterm with h' | h' <;> cases h'
    · rw [if_neg hid]
      exact hRes j hj
  · intro a' ha' b' hb' hab hbq
    obtain ⟨a, ha, rfl⟩ := mem_applyUpd.mp ha'
    obtain ⟨b, hb, rfl⟩ := mem_applyUpd.mp hb'
    by_cases hia : a.id = i
    · rw [if_pos hia]
      intro h'; cases h'
    · rw [if_neg hia] at hab ⊢
      by_cases hib : b.id = i
      · rw [if_pos hib] at hab
        have hab' : a.id < i := by
          have : ({ b with status := Status.running } : Job).id = b.id := rfl
          omega
        exact hmin a ha hab'
      · rw [if_neg hib] at hab hbq
        exact hOrd a ha b hb hab hbq
  · refine ⟨{ j₀ with status := Status.running }, ?_, hj₀id, rfl⟩
    exact mem_applyUpd.mpr ⟨j₀, hj₀m, if_pos hj₀id⟩
  · intro j' hj' hrun
    obtain ⟨j, hj, rfl⟩ := mem_applyUpd.mp hj'
    by_cases hid : j.id = i
    · rw [if_pos hid]
      exact hid
    · rw [if_neg hid] at hrun
      exact absurd hrun (hnorun j hj)

theorem inv_finish {s : Store} {i : Nat} {st : Status} {r : JVal}
    (hst : st = .done ∨ st = .error)
    (hBelow : IdsBelow s) (hSorted : IdsSorted s) (hRes : ResultInv s)
    (hOrd : OrderInv s) (hW : WpcInv s (.claimed i)) :
    Inv ⟨setStatusResult s i st r, .idle⟩ := by
  obtain ⟨⟨j₀, hj₀m, hj₀id, hj₀r⟩, huniq⟩ := hW
  have hf : ∀ j : Job,
      ({ j with status := st, result_json := some r } : Job).id = j.id := fun _ => rfl
  have hstq : st ≠ Status.queued := by rcases hst with rfl | rfl <;> intro h' <;> cases h'
  have hstr : st ≠ Status.running := by rcases hst with rfl | rfl <;> intro h' <;> cases h'
  refine ⟨idsBelow_applyUpd hf hBelow, idsSorted_applyUpd hf hSorted, ?_, ?_, ?_⟩
  · intro j' hj'
    obtain ⟨j, hj, rfl⟩ := mem_applyUpd.mp hj'
    by_cases hid : j.id = i
    · rw [if_pos hid]
      refine ⟨fun hq => ?_, fun _ => by simp⟩
      rcases hq with hq | hq
      · exact absurd hq hstq
      · exact absurd hq hstr
    · rw [if_neg hid]
      exact hRes j hj
  · intro a' ha' b' hb' hab hbq
    obtain ⟨a, ha, rfl⟩ := mem_applyUpd.mp ha'
    obtain ⟨b, hb, rfl⟩ := mem_applyUpd.mp hb'
    by_cases hia : a.id = i
    · rw [if_pos hia]
      exact fun h' => hstq h'
    · rw [if_neg hia] at hab ⊢
      by_cases hib : b.id = i
      · rw [if_pos hib] at hab
        have hbrun : b.status = Status.running := by
          have : b = j₀ := pairwise_id_unique hSorted hb hj₀m (hib.trans hj₀id.symm)
          rw [this]; exact hj₀r
        have hab' : a.id < b.id := by
          have : ({ b with status := st, result_json := some r } : Job).id = b.id := rfl
          omega
        exact hOrd a ha b hb hab' (by rw [hbrun]; intro h'; cases h')
      · rw [if_neg hib] at hab hbq
        exact hOrd a ha b hb hab hbq
  · intro j' hj' hrun
    obtain ⟨j, hj, rfl⟩ := mem_applyUpd.mp hj'
    by_cases hid : j.id = i
    · rw [if_pos hid] at hrun
      exact absurd hrun hstr
    · rw [if_neg hid] at hrun
      exact absurd (huniq j hj hrun) hid

theorem inv_step {σ σ' : Sys} (h : Inv σ) (hs : Step σ σ') : Inv σ' := by
  obtain ⟨hBelow, hSorted, hRes, hOrd, hW⟩ := h
  cases hs with
  | submit target =>
    cases target with
    | none => exact ⟨hBelow, hSorted, hRes, hOrd, hW⟩
    | some t =>
      by_cases ht : t = ""
      · subst ht
        exact ⟨hBelow, hSorted, hRes, hOrd, hW⟩
      · rw [start_job_insert _ _ ht]
        exact inv_insert hBelow hSorted hRes hOrd hW t
  | query jid => exact ⟨hBelow, hSorted, hRes, hOrd, hW⟩
  | pollNone h1 h2 => exact ⟨hBelow, hSorted, hRes, hOrd, hW⟩
  | pollSome i t h1 h2 =>
    rw [h1] at hW
    exact inv_pollSome hBelow hSorted hRes hOrd hW h2
  | claim i h1 =>
    rw [h1] at hW
    exact inv_claim hBelow hSorted hRes hOrd hW
  | finish i outcome h1 =>
    rw [h1] at hW
    unfold finishStore
    cases houtcome : process_target outcome with
    | ok r => exact inv_finish (Or.inl rfl) hBelow hSorted hRes hOrd hW
    | error msg => exact inv_finish (Or.inr rfl) hBelow hSorted hRes hOrd hW

theorem reachable_inv {σ : Sys} (h : Reachable σ) : Inv σ := by
  induction h with
  | init => exact inv_init
  | step _ hs ih => exact inv_step ih hs

/-! ## Concrete reachability and small unfolding lemmas -/

theorem reach_sysA : Reachable sysA :=
  Reachable.step Reachable.init (Step.submit initSys (some "alice"))

theorem reach_sysB : Reachable sysB :=
  Reachable.step reach_sysA (Step.pollSome sysA 1 "alice" rfl rfl)

theorem reach_sysC : Reachable sysC :=
  Reachable.step reach_sysB (Step.claim sysB 1 rfl)

theorem statusStepOk_refl (o : Option Status) : statusStepOk o o := by
  cases o with
  | none => trivial
  | some st => exact Or.inl rfl

theorem finishStore_exc (s : Store) (i : Nat) (msg : String) :
    finishStore s i (.exc msg) = setStatusResult s i .error (errObj msg) := rfl

theorem finishStore_notExists (s : Store) (i : Nat) :
    finishStore s i .notExists =
      setStatusResult s i .done (.obj [("exists", .bool false)]) := rfl

/-- What a successful `SELECT ... WHERE status='queued' ORDER BY id LIMIT 1`
returns on an id-sorted table: a queued row whose id is minimal among the
queued rows. -/
theorem selectNextQueued_spec {s : Store} (hs : IdsSorted s) {i : Nat} {t : String}
    (hsel : selectNextQueued s = some (i, t)) :
    ∃ j ∈ s.jobs, j.id = i ∧ j.target = t ∧ j.status = .queued ∧
      ∀ b ∈ s.jobs, b.status = .queued → i ≤ b.id := by
  obtain ⟨j₀, hfind, hg⟩ := Option.map_eq_some'.mp hsel
  have hj₀id : j₀.id = i := congrArg Prod.fst hg
  have hj₀t : j₀.target = t := congrArg Prod.snd hg
  have hj₀m : j₀ ∈ s.jobs := List.mem_of_find?_eq_some hfind
  have hpj := List.find?_some (p := fun j : Job => j.status == Status.queued) hfind
  have hj₀q : j₀.status = Status.queued := beq_iff_eq.mp hpj
  refine ⟨j₀, hj₀m, hj₀id, hj₀t, hj₀q, ?_⟩
  obtain ⟨l₁, l₂, heq, hl₁, _⟩ := find?_split hfind
  have hS : (l₁ ++ j₀ :: l₂).Pairwise (fun a b => a.id < b.id) := by
    rw [← heq]; exact hs
  intro b hb hbq
  rw [heq] at hb
  rcases List.mem_append.mp hb with hb | hb
  · have hpb := hl₁ b hb
    rw [hbq] at hpb
    simp at hpb
  · rcases List.mem_cons.mp hb with rfl | hb
    · omega
    · have h' := List.rel_of_pairwise_cons (List.pairwise_append.mp hS).2.1 hb
      omega

/-! ## Auxiliary lemmas about `statusOf` across single statements -/

theorem statusOf_insert_ok (s : Store) (t : String) (k : Nat) :
    statusStepOk (statusOf s k)
      (statusOf ⟨s.jobs ++ [⟨s.nextId, t, .queued, none⟩], s.nextId + 1⟩ k) := by
  simp only [statusOf]
  rw [List.find?_append]
  cases hfind : s.jobs.find? (fun j => j.id == k) with
  | some j =>
    exact statusStepOk_refl _
  | none =>
    rw [Option.none_or]
    by_cases hk : ((⟨s.nextId, t, .queued, none⟩ : Job).id == k) = true
    · rw [List.find?_cons_of_pos (p := fun j : Job => j.id == k) _ hk]
      rfl
    · rw [List.find?_cons_of_neg (p := fun j : Job => j.id == k) _ hk]
      trivial

theorem statusOf_claim_ok {s : Store} {i : Nat} (k : Nat) (hSorted : IdsSorted s)
    (hj₀ : ∃ j ∈ s.jobs, j.id = i ∧ j.status = .queued) :
    statusStepOk (statusOf s k) (statusOf (setStatus s i .running) k) := by
  obtain ⟨j₀, hj₀m, hj₀id, hj₀q⟩ := hj₀
  simp only [statusOf]
  rw [show (setStatus s i Status.running).jobs =
      applyUpd i (fun j => { j with status := Status.running }) s.jobs from rfl,
    find?_id_applyUpd (f := fun j => { j with status := Status.running })
      (fun _ => rfl) _ k]
  cases hfind : s.jobs.find? (fun j => j.id == k) with
  | none => trivial
  | some j =>
    simp only [Option.map_some', statusStepOk]
    by_cases hid : j.id = i
    · have hj : j ∈ s.jobs := List.mem_of_find?_eq_some hfind
      have hjq : j.status = Status.queued := by
        rw [pairwise_id_unique hSorted hj hj₀m (by rw [hid, hj₀id])]
        exact hj₀q
      rw [if_pos hid]
      exact Or.inr (Or.inl ⟨hjq, rfl⟩)
    · rw [if_neg hid]
      exact Or.inl rfl

theorem statusOf_finish_ok {s : Store} {i : Nat} {st : Status} {r : JVal} (k : Nat)
    (hSorted : IdsSorted s)
    (hj₀ : ∃ j ∈ s.jobs, j.id = i ∧ j.status = .running)
    (hst : st = .done ∨ st = .error) :
    statusStepOk (statusOf s k) (statusOf (setStatusResult s i st r) k) := by
  obtain ⟨j₀, hj₀m, hj₀id, hj₀r⟩ := hj₀
  simp only [statusOf]
  rw [show (setStatusResult s i st r).jobs =
      applyUpd i (fun j => { j with status := st, result_json := some r }) s.jobs from rfl,
    find?_id_applyUpd (f := fun j => { j with status := st, result_json := some r })
      (fun _ => rfl) _ k]
  cases hfind : s.jobs.find? (fun j => j.id == k) with
  | none => trivial
  | some j =>
    simp only [Option.map_some', statusStepOk]
    by_cases hid : j.id = i
    · have hj : j ∈ s.jobs := List.mem_of_find?_eq_some hfind
      have hjr : j.status = Status.running := by
        rw [pairwise_id_unique hSorted hj hj₀m (by rw [hid, hj₀id])]
        exact hj₀r
      rw [if_pos hid]
      refine Or.inr (Or.inr ⟨hjr, ?_⟩)
      rcases hst with rfl | rfl
      · exact Or.inl rfl
      · exact Or.inr rfl
    · rw [if_neg hid]
      exact Or.inl rfl

/-! ## The claims -/

/-- C1 counterexample: the claim operation (the `SELECT` of line 67 followed
by the unguarded `UPDATE` of line 71) is not atomic, so for a pool of two
concurrent claimers the contract "each queued Job is claimed by exactly one
claimer" fails: from a store holding the single queued job 1, the
interleaving select / select / update / update is reachable and ends with
both claimers having claimed job 1. -/
theorem C1_counterexample :
    Reach2 raceStart raceEnd ∧
      raceEnd.c1 = .claimedJob 1 ∧ raceEnd.c2 = .claimedJob 1 := by
  refine ⟨?_, rfl, rfl⟩
  have r1 : Reach2 raceStart ⟨raceStart.store, .selected 1, .start⟩ :=
    Reach2.step Reach2.refl (Step2.poll1 raceStart 1 "alice" rfl rfl)
  have r2 : Reach2 raceStart ⟨raceStart.store, .selected 1, .selected 1⟩ :=
    Reach2.step r1 (Step2.poll2 _ 1 "alice" rfl rfl)
  have r3 : Reach2 raceStart
      ⟨setStatus raceStart.store 1 .running, .claimedJob 1, .selected 1⟩ :=
    Reach2.step r2 (Step2.upd1 _ 1 rfl)
  exact Reach2.step r3 (Step2.upd2 _ 1 rfl)

/-- C1 (amended): for a single claimer — the only configuration in the
source — `claim_next` is correct: on an id-sorted store it returns `none`
and leaves the store unchanged when no queued job exists, and otherwise
selects the queued job of lowest id, transitions exactly that job to
`running`, and returns it. (The atomicity of the claim under two or more
concurrent claimers fails; see the counterexample.) -/
theorem C1_claim_next_single_claimer (s : Store) (hs : IdsSorted s) :
    ((claim_next s).1 = none →
      (claim_next s).2 = s ∧ ∀ j ∈ s.jobs, j.status ≠ .queued) ∧
    (∀ i t, (claim_next s).1 = some (i, t) →
      (∃ j ∈ s.jobs, j.id = i ∧ j.target = t ∧ j.status = .queued ∧
          ∀ b ∈ s.jobs, b.status = .queued → i ≤ b.id) ∧
      (∃ j ∈ (claim_next s).2.jobs, j.id = i ∧ j.status = .running) ∧
      (∀ j ∈ s.jobs, j.id ≠ i → j ∈ (claim_next s).2.jobs)) := by
  cases hsel : selectNextQueued s with
  | none =>
    refine ⟨fun _ => ⟨by simp [claim_next, hsel], ?_⟩, fun i t heq => ?_⟩
    · intro j hj hq
      have hfind : s.jobs.find? (fun j => j.status == Status.queued) = none :=
        Option.map_eq_none'.mp hsel
      have hp := List.find?_eq_none.mp hfind j hj
      rw [hq] at hp
      simp at hp
    · rw [show (claim_next s).1 = none from by simp [claim_next, hsel]] at heq
      cases heq
  | some it =>
    obtain ⟨i₀, t₀⟩ := it
    have h1 : (claim_next s).1 = some (i₀, t₀) := by simp [claim_next, hsel]
    have h2 : (claim_next s).2 = setStatus s i₀ .running := by simp [claim_next, hsel]
    refine ⟨fun hnone => ?_, fun i t heq => ?_⟩
    · rw [h1] at hnone; cases hnone
    · rw [h1] at heq
      have hp := Option.some.inj heq
      have hi : i₀ = i := congrArg Prod.fst hp
      have ht : t₀ = t := congrArg Prod.snd hp
      subst hi; subst ht
      obtain ⟨j₀, hm, hid, hjt, hq, hmin⟩ := selectNextQueued_spec hs hsel
      refine ⟨⟨j₀, hm, hid, hjt, hq, hmin⟩, ?_, ?_⟩
      · rw [h2]
        exact ⟨{ j₀ with status := .running },
          mem_applyUpd.mpr ⟨j₀, hm, if_pos hid⟩, hid, rfl⟩
      · intro j hj hne
        rw [h2]
        exact mem_applyUpd_of_ne hj hne

/-- Witness for the amended C1 on a concrete store: `claim_next` on a store
with the single queued job 1 returns job 1 and makes it running. -/
theorem C1_claim_next_single_claimer_witness :
    (claim_next ⟨[demoJob], 2⟩).1 = some (1, "alice") ∧
    ∃ j ∈ (claim_next ⟨[demoJob], 2⟩).2.jobs, j.id = 1 ∧ j.status = .running := by
  have h := (C1_claim_next_single_claimer ⟨[demoJob], 2⟩
    (by simp [IdsSorted])).2 1 "alice" rfl
  exact ⟨rfl, h.2.1⟩

/-- C2: in every reachable state of the system — any interleaving of
`start_job`/`job_status` requests with the single worker's statements — at
most one job row has status `running`. -/
theorem C2_at_most_one_running {σ : Sys} (h : Reachable σ) :
    σ.store.jobs.countP (fun j => j.status == Status.running) ≤ 1 := by
  obtain ⟨_, hSorted, _, _, hW⟩ := reachable_inv h
  cases hwpc : σ.wpc with
  | idle =>
    rw [hwpc] at hW
    have h0 : σ.store.jobs.countP (fun j => j.status == Status.running) = 0 :=
      List.countP_eq_zero.mpr fun j hj => by
        simp only [beq_iff_eq]
        exact hW j hj
    omega
  | selected i =>
    rw [hwpc] at hW
    have h0 : σ.store.jobs.countP (fun j => j.status == Status.running) = 0 :=
      List.countP_eq_zero.mpr fun j hj => by
        simp only [beq_iff_eq]
        exact hW.2.1 j hj
    omega
  | claimed i =>
    rw [hwpc] at hW
    calc σ.store.jobs.countP (fun j => j.status == Status.running)
        ≤ σ.store.jobs.countP (fun j => j.id == i) := by
          refine List.countP_mono_left fun j hj hrun => ?_
          simp only [beq_iff_eq] at hrun ⊢
          exact hW.2 j hj hrun
      _ ≤ 1 := countP_id_le_one hSorted i

/-- Witness for C2 at the reachable state in which job 1 is running. -/
theorem C2_at_most_one_running_witness :
    sysC.store.jobs.countP (fun j => j.status == Status.running) ≤ 1 :=
  C2_at_most_one_running reach_sysC

/-- C3: across every step of every reachable execution, the status of each
job id moves only forward along `queued → running → {done, error}`: it never
returns from `running` to `queued` and never leaves a terminal state. -/
theorem C3_status_transitions_monotone {σ σ' : Sys} (h : Reachable σ)
    (hs : Step σ σ') (k : Nat) :
    statusStepOk (statusOf σ.store k) (statusOf σ'.store k) := by
  obtain ⟨hBelow, hSorted, hRes, hOrd, hW⟩ := reachable_inv h
  cases hs with
  | submit target =>
    cases target with
    | none => exact statusStepOk_refl _
    | some t =>
      by_cases ht : t = ""
      · subst ht; exact statusStepOk_refl _
      · rw [start_job_insert _ _ ht]
        exact statusOf_insert_ok σ.store t k
  | query jid => exact statusStepOk_refl _
  | pollNone h1 h2 => exact statusStepOk_refl _
  | pollSome i t h1 h2 => exact statusStepOk_refl _
  | claim i h1 =>
    rw [h1] at hW
    exact statusOf_claim_ok k hSorted hW.1
  | finish i outcome h1 =>
    rw [h1] at hW
    cases hpt : process_target outcome with
    | ok r =>
      rw [show finishStore σ.store i outcome = setStatusResult σ.store i .done r from by
        rw [finishStore, hpt]]
      exact statusOf_finish_ok k hSorted hW.1 (Or.inl rfl)
    | error msg =>
      rw [show finishStore σ.store i outcome =
          setStatusResult σ.store i .error (errObj msg) from by
        rw [finishStore, hpt]]
      exact statusOf_finish_ok k hSorted hW.1 (Or.inr rfl)

/-- Witness for C3 at the concrete claim step that moves job 1 from `queued`
to `running`. -/
theorem C3_status_transitions_monotone_witness :
    statusStepOk (statusOf sysB.store 1) (statusOf sysC.store 1) :=
  C3_status_transitions_monotone reach_sysB (Step.claim sysB 1 rfl) 1

/-- C4: in every reachable state, `result_json` is `NULL` while a job is
`queued` or `running` and non-`NULL` once it is `done` or `error` (it is
written exactly at the terminal transition, which is the only statement that
writes it); and no step changes a terminal row in any way — the whole row,
result included, persists unchanged into every successor state. -/
theorem C4_result_write_once {σ : Sys} (h : Reachable σ) :
    (∀ j ∈ σ.store.jobs,
      ((j.status = .queued ∨ j.status = .running) → j.result_json = none) ∧
      ((j.status = .done ∨ j.status = .error) → j.result_json ≠ none)) ∧
    (∀ σ', Step σ σ' → ∀ j ∈ σ.store.jobs,
      (j.status = .done ∨ j.status = .error) → j ∈ σ'.store.jobs) := by
  obtain ⟨hBelow, hSorted, hRes, hOrd, hW⟩ := reachable_inv h
  refine ⟨hRes, ?_⟩
  intro σ' hs j hj hterm
  have hterm_ne_q : j.status ≠ .queued := by
    rcases hterm with h' | h' <;> rw [h'] <;> intro h'' <;> cases h''
  have hterm_ne_r : j.status ≠ .running := by
    rcases hterm with h' | h' <;> rw [h'] <;> intro h'' <;> cases h''
  cases hs with
  | submit target =>
    cases target with
    | none => exact hj
    | some t =>
      by_cases ht : t = ""
      · subst ht; exact hj
      · rw [start_job_insert _ _ ht]
        exact List.mem_append_left _ hj
  | query jid => exact hj
  | pollNone h1 h2 => exact hj
  | pollSome i t h1 h2 => exact hj
  | claim i h1 =>
    rw [h1] at hW
    obtain ⟨⟨j₀, hj₀m, hj₀id, hj₀q⟩, _, _⟩ := hW
    refine mem_applyUpd_of_ne hj fun hid => ?_
    have : j = j₀ := pairwise_id_unique hSorted hj hj₀m (by rw [hid, hj₀id])
    rw [this] at hterm_ne_q
    exact hterm_ne_q hj₀q
  | finish i outcome h1 =>
    rw [h1] at hW
    obtain ⟨⟨j₀, hj₀m, hj₀id, hj₀r⟩, _⟩ := hW
    have hne : j.id ≠ i := fun hid => by
      have : j = j₀ := pairwise_id_unique hSorted hj hj₀m (by rw [hid, hj₀id])
      rw [this] at hterm_ne_r
      exact hterm_ne_r hj₀r
    cases hpt : process_target outcome with
    | ok r =>
      rw [show finishStore σ.store i outcome = setStatusResult σ.store i .done r from by
        rw [finishStore, hpt]]
      exact mem_applyUpd_of_ne hj hne
    | error msg =>
      rw [show finishStore σ.store i outcome =
          setStatusResult σ.store i .error (errObj msg) from by
        rw [finishStore, hpt]]
      exact mem_applyUpd_of_ne hj hne

/-- Witness for C4 at the reachable state holding one queued job: that job's
result is `NULL`. -/
theorem C4_result_write_once_witness : demoJob.result_json = none :=
  ((C4_result_write_once reach_sysA).1 demoJob (List.mem_singleton.mpr rfl)).1
    (Or.inl rfl)

/-- C5 counterexample: `complete` as implemented — the unguarded
`UPDATE jobs SET status='done', result_json=? WHERE id=?` of line 79 —
applied to a job whose status is `queued`, not `running`, is not a no-op:
it changes the row to `done` and overwrites its result, refuting "if the Job
is not 'running' ... the Job row is left unchanged". -/
theorem C5_counterexample :
    (⟨1, "alice", .queued, none⟩ : Job).status ≠ .running ∧
    (setStatusResult ⟨[⟨1, "alice", .queued, none⟩], 2⟩ 1 .done
        (.obj [("exists", .bool true)])).jobs =
      [⟨1, "alice", .done, some (.obj [("exists", .bool true)])⟩] :=
  ⟨by decide, rfl⟩

/-- C5 (amended): the terminal updates of lines 79 and 85 carry no
`status='running'` guard, so as store operations they modify whichever row
the id addresses (see the counterexample); however, the program only issues
them from worker state `claimed i`, and in every reachable state the job the
worker has claimed is `running` at that point, so along real executions
`complete`/`fail` are applied only to a `running` job. -/
theorem C5_terminal_update_only_on_running {σ : Sys} {i : Nat} (h : Reachable σ)
    (hw : σ.wpc = .claimed i) :
    ∃ j ∈ σ.store.jobs, j.id = i ∧ j.status = .running := by
  obtain ⟨_, _, _, _, hW⟩ := reachable_inv h
  rw [hw] at hW
  exact hW.1

/-- Witness for the amended C5 at the reachable state in which the worker
has claimed job 1. -/
theorem C5_terminal_update_only_on_running_witness :
    ∃ j ∈ sysC.store.jobs, j.id = 1 ∧ j.status = .running :=
  C5_terminal_update_only_on_running reach_sysC rfl

/-- C6: in every reachable state, the row the worker's `SELECT` claims is a
queued job of minimal id among all queued jobs; and no job of smaller id is
still `queued` while a job of larger id is `running`. -/
theorem C6_jobs_claimed_in_creation_order {σ : Sys} (h : Reachable σ) :
    (∀ i t, selectNextQueued σ.store = some (i, t) →
      ∃ j ∈ σ.store.jobs, j.id = i ∧ j.target = t ∧ j.status = .queued ∧
        ∀ b ∈ σ.store.jobs, b.status = .queued → i ≤ b.id) ∧
    (∀ a ∈ σ.store.jobs, ∀ b ∈ σ.store.jobs, a.id < b.id → b.status = .running →
      a.status ≠ .queued) := by
  obtain ⟨_, hSorted, _, hOrd, _⟩ := reachable_inv h
  refine ⟨fun i t hsel => selectNextQueued_spec hSorted hsel, ?_⟩
  intro a ha b hb hab hbr
  refine hOrd a ha b hb hab ?_
  rw [hbr]
  intro h'; cases h'

/-- Witness for C6: on the reachable one-job store the `SELECT` picks job 1,
the minimal queued id. -/
theorem C6_jobs_claimed_in_creation_order_witness :
    ∃ j ∈ sysA.store.jobs, j.id = 1 ∧ j.target = "alice" ∧ j.status = .queued ∧
      ∀ b ∈ sysA.store.jobs, b.status = .queued → 1 ≤ b.id :=
  (C6_jobs_claimed_in_creation_order reach_sysA).1 1 "alice" rfl

/-- C7: when the Fetcher raises any exception while the worker processes its
claimed job `i`, the worker's terminal statement is a legal step back to the
idle loop top; it marks exactly job `i` as `error` with result
`{'error': message}`, leaves every other row untouched, the resulting state
is again reachable (the loop survives), and from it the worker can claim
whatever queued job the next `SELECT` returns. -/
theorem C7_fetch_failure_localized {σ : Sys} {i : Nat} (h : Reachable σ)
    (hw : σ.wpc = .claimed i) (msg : String) :
    Step σ ⟨finishStore σ.store i (.exc msg), .idle⟩ ∧
    Reachable ⟨finishStore σ.store i (.exc msg), .idle⟩ ∧
    (∃ j ∈ (finishStore σ.store i (.exc msg)).jobs,
      j.id = i ∧ j.status = .error ∧ j.result_json = some (errObj msg)) ∧
    (∀ j ∈ σ.store.jobs, j.id ≠ i → j ∈ (finishStore σ.store i (.exc msg)).jobs) ∧
    (∀ i' t', selectNextQueued (finishStore σ.store i (.exc msg)) = some (i', t') →
      Step ⟨finishStore σ.store i (.exc msg), .idle⟩
        ⟨finishStore σ.store i (.exc msg), .selected i'⟩) := by
  obtain ⟨_, _, _, _, hW⟩ := reachable_inv h
  rw [hw] at hW
  obtain ⟨⟨j₀, hj₀m, hj₀id, hj₀r⟩, _⟩ := hW
  have hstep : Step σ ⟨finishStore σ.store i (.exc msg), .idle⟩ :=
    Step.finish σ i (.exc msg) hw
  refine ⟨hstep, Reachable.step h hstep, ?_, ?_, ?_⟩
  · rw [finishStore_exc]
    exact ⟨{ j₀ with status := .error, result_json := some (errObj msg) },
      mem_applyUpd.mpr ⟨j₀, hj₀m, if_pos hj₀id⟩, hj₀id, rfl, rfl⟩
  · intro j hj hne
    rw [finishStore_exc]
    exact mem_applyUpd_of_ne hj hne
  · intro i' t' hsel
    exact Step.pollSome _ i' t' rfl hsel

/-- Witness for C7 at the reachable state in which the worker has claimed
job 1 and the Fetcher raises an exception with message "boom". -/
theorem C7_fetch_failure_localized_witness :
    Step sysC ⟨finishStore sysC.store 1 (.exc "boom"), .idle⟩ ∧
    Reachable ⟨finishStore sysC.store 1 (.exc "boom"), .idle⟩ ∧
    (∃ j ∈ (finishStore sysC.store 1 (.exc "boom")).jobs,
      j.id = 1 ∧ j.status = .error ∧ j.result_json = some (errObj "boom")) ∧
    (∀ j ∈ sysC.store.jobs, j.id ≠ 1 → j ∈ (finishStore sysC.store 1 (.exc "boom")).jobs) ∧
    (∀ i' t', selectNextQueued (finishStore sysC.store 1 (.exc "boom")) = some (i', t') →
      Step ⟨finishStore sysC.store 1 (.exc "boom"), .idle⟩
        ⟨finishStore sysC.store 1 (.exc "boom"), .selected i'⟩) :=
  C7_fetch_failure_localized reach_sysC rfl "boom"

/-- C8: when the Fetcher reports that the profile does not exist,
`process_target` returns `{'exists': False}` normally (no exception), so the
worker's terminal update marks the job `done` — not `error` — with result
`{'exists': False}`. -/
theorem C8_not_found_is_done (s : Store) (i : Nat) (j : Job)
    (hj : j ∈ (finishStore s i .notExists).jobs) (hid : j.id = i) :
    process_target .notExists = .ok (.obj [("exists", .bool false)]) ∧
    j.status = .done ∧ j.result_json = some (.obj [("exists", .bool false)]) := by
  refine ⟨rfl, ?_⟩
  rw [finishStore_notExists] at hj
  obtain ⟨j', hj', rfl⟩ := mem_applyUpd.mp hj
  by_cases h' : j'.id = i
  · rw [if_pos h']
    exact ⟨rfl, rfl⟩
  · rw [if_neg h'] at hid ⊢
    exact absurd hid h'

/-- Witness for C8: the job of the target `ghost_user_404` ends `done` with
`{'exists': False}`. -/
theorem C8_not_found_is_done_witness :
    process_target .notExists = .ok (.obj [("exists", .bool false)]) ∧
    (⟨1, "ghost_user_404", .done, some (.obj [("exists", .bool false)])⟩ : Job).status
        = .done ∧
    (⟨1, "ghost_user_404", .done, some (.obj [("exists", .bool false)])⟩ : Job).result_json
        = some (.obj [("exists", .bool false)]) :=
  C8_not_found_is_done ⟨[⟨1, "ghost_user_404", .running, none⟩], 2⟩ 1
    ⟨1, "ghost_user_404", .done, some (.obj [("exists", .bool false)])⟩
    (List.mem_singleton.mpr rfl) rfl

/-- C9: `start_job` with an empty target fails with the 400 `missing`
response (the spec's `InvalidTarget`) and creates no job — the store, hence
the queue length, is exactly what it was; with any non-empty target it
appends exactly one new `queued` job carrying the next id and returns that
id. -/
theorem C9_submit_validation (s : Store) :
    (start_job true s (some "") = (s, .error .missing) ∧
      (start_job true s (some "")).1.jobs.length = s.jobs.length) ∧
    (∀ t, t ≠ "" →
      start_job true s (some t) =
        (⟨s.jobs ++ [⟨s.nextId, t, .queued, none⟩], s.nextId + 1⟩, .ok s.nextId) ∧
      ∃ j ∈ (start_job true s (some t)).1.jobs,
        j.id = s.nextId ∧ j.target = t ∧ j.status = .queued) := by
  refine ⟨⟨rfl, rfl⟩, fun t ht => ⟨start_job_insert s t ht, ?_⟩⟩
  rw [start_job_insert s t ht]
  exact ⟨⟨s.nextId, t, .queued, none⟩,
    List.mem_append_right _ (List.mem_singleton.mpr rfl), rfl, rfl, rfl⟩

/-- Witness for C9 on the empty store: `submit("")` is rejected with the
store unchanged, `submit("alice")` inserts job 1. -/
theorem C9_submit_validation_witness :
    start_job true initStore (some "") = (initStore, .error .missing) ∧
    start_job true initStore (some "alice") =
      (⟨initStore.jobs ++ [⟨initStore.nextId, "alice", .queued, none⟩],
        initStore.nextId + 1⟩, .ok initStore.nextId) :=
  ⟨(C9_submit_validation initStore).1.1,
    ((C9_submit_validation initStore).2 "alice" (by decide)).1⟩

/-- C10 counterexample: a store failure during the worker's poll (the
`sqlite3.connect`/`SELECT` of lines 65-68, outside the `try` of line 74)
escapes the loop body — the daemon worker thread terminates instead of
backing off and retrying, refuting "the store error never escapes the
loop". -/
theorem C10_counterexample :
    worker_iteration ⟨true, false, false, false⟩ (.exc "net down") initStore =
      .error storeErrMsg := rfl

/-- C10 (amended): the worker sleeps and retries only in the empty-queue
case; a store failure during the success-persist (lines 77-81, inside the
`try`) is caught by the `except` of line 82 and recorded as the job's error
result, so the loop survives it; but a store failure during the poll, the
claim update, or the error-persist is uncaught — it escapes the loop body
and terminates the worker thread. -/
theorem C10_store_failure_behaviour (s : Store) (o : FetchOutcome) (b2 b3 b4 : Bool) :
    (worker_iteration ⟨true, b2, b3, b4⟩ o s = .error storeErrMsg) ∧
    (selectNextQueued s = none → worker_iteration ⟨false, b2, b3, b4⟩ o s = .ok (s, true)) ∧
    (∀ i t, selectNextQueued s = some (i, t) →
      worker_iteration ⟨false, true, b3, b4⟩ o s = .error storeErrMsg) ∧
    (∀ i t r, selectNextQueued s = some (i, t) → process_target o = .ok r →
      worker_iteration ⟨false, false, true, false⟩ o s =
        .ok (setStatusResult (setStatus s i .running) i .error (errObj storeErrMsg),
          false)) ∧
    (∀ i t msg, selectNextQueued s = some (i, t) → process_target o = .error msg →
      worker_iteration ⟨false, false, false, true⟩ o s = .error storeErrMsg) := by
  refine ⟨rfl, fun hsel => ?_, fun i t hsel => ?_, fun i t r hsel hpt => ?_,
    fun i t msg hsel hpt => ?_⟩
  · simp [worker_iteration, hsel]
  · simp [worker_iteration, hsel]
  · simp [worker_iteration, hsel, hpt]
  · simp [worker_iteration, hsel, hpt]

/-- Witness for the amended C10: on a store with one queued job, a failing
claim update kills the iteration, while a failing success-persist (with the
error-persist healthy) survives and marks job 1 `error` with the store
error message. -/
theorem C10_store_failure_behaviour_witness :
    worker_iteration ⟨false, true, false, false⟩ (.exc "boom") ⟨[demoJob], 2⟩ =
      .error storeErrMsg ∧
    worker_iteration ⟨false, false, true, false⟩ .notExists ⟨[demoJob], 2⟩ =
      .ok (setStatusResult (setStatus ⟨[demoJob], 2⟩ 1 .running) 1 .error
        (errObj storeErrMsg), false) :=
  ⟨(C10_store_failure_behaviour ⟨[demoJob], 2⟩ (.exc "boom") false false false).2.2.1
      1 "alice" rfl,
    (C10_store_failure_behaviour ⟨[demoJob], 2⟩ .notExists false false false).2.2.2.1
      1 "alice" (.obj [("exists", .bool false)]) rfl rfl⟩

end Insta
